import Mathlib

/-!
Verification of the TaskMaster persistence core (`taskmaster/db/database.py`)
and task entity model (`taskmaster/models/task.py`) against its specification.

The Python code is shallowly embedded: the SQLite store is a record of row
lists, each CRUD method a pure function on that record, fallible Python code
(raising `KeyError` / `ValueError` / `TypeError`) returns `Option`.

Timestamps: Python `datetime` values are modelled as `Nat`.  The code only
ever moves a timestamp across the storage boundary via
`datetime.isoformat` / `datetime.fromisoformat`, which the Python reference
documents as exact inverses for the naive datetimes used here; we model the
pair as an injective rendering into a non-empty string together with its
exact partial inverse.
-/

namespace TaskMaster

/-- Python `datetime`, abstracted to a count of time units. -/
abbrev DateTime := Nat

/-- Embeds `datetime.isoformat`: an injective rendering of a timestamp as a
non-empty string (modelling choice; the code never inspects the text). -/
def isoformat (d : DateTime) : String := String.mk (List.replicate (d + 1) 'T')

/-- Embeds `datetime.fromisoformat`: exact partial inverse of `isoformat`;
any string outside its image raises `ValueError`, modelled as `none`. -/
def fromisoformat (s : String) : Option DateTime :=
  if s.data ≠ [] ∧ s.data.all (fun c => c = 'T') then some (s.data.length - 1) else none

/-- Embeds `Priority(Enum)` from `models/task.py`: LOW, MEDIUM, HIGH (`auto()` values). -/
inductive Priority where
  | LOW
  | MEDIUM
  | HIGH
deriving DecidableEq

/-- Embeds `Priority.name`: the symbolic member name, as stored by the database layer. -/
def Priority.name : Priority → String
  | .LOW => "LOW"
  | .MEDIUM => "MEDIUM"
  | .HIGH => "HIGH"

/-- Embeds `Priority[s]` (member lookup by name): `KeyError` for unknown names,
modelled as `none`. -/
def Priority.fromName (s : String) : Option Priority :=
  if s = ("LOW") then some .LOW
  else if s = ("MEDIUM") then some .MEDIUM
  else if s = ("HIGH") then some .HIGH
  else none

/-- Embeds `Status(Enum)` from `models/task.py`, with display-label values. -/
inductive Status where
  | TODO
  | IN_PROGRESS
  | COMPLETED
  | ARCHIVED
deriving DecidableEq

/-- Embeds `Status.value`: the display label string, as stored by the database layer. -/
def Status.value : Status → String
  | .TODO => "To Do"
  | .IN_PROGRESS => "In Progress"
  | .COMPLETED => "Completed"
  | .ARCHIVED => "Archived"

/-- Embeds `Status(s)` (lookup by value): `ValueError` for unknown values,
modelled as `none`. -/
def Status.fromValue (s : String) : Option Status :=
  if s = ("To Do") then some .TODO
  else if s = ("In Progress") then some .IN_PROGRESS
  else if s = ("Completed") then some .COMPLETED
  else if s = ("Archived") then some .ARCHIVED
  else none

/-- The `Task` entity (`models/task.py`).  `id` is `None` until storage
assigns one; `__init__` defaults are applied at each construction site. -/
structure Task where
  id : Option Nat
  title : String
  description : String
  priority : Priority
  status : Status
  due_date : Option DateTime
  tags : List String
  created_at : DateTime
  updated_at : DateTime
deriving DecidableEq

/-- A value of the plain dictionary representation used by
`Task.to_dict` / `Task.from_dict` (strings, integers, null, string lists). -/
inductive DVal where
  | null
  | str (s : String)
  | nat (n : Nat)
  | list (l : List String)
deriving DecidableEq

/-- Python truthiness of a `DVal` (`None`, `""`, `0`, `[]` are falsy). -/
def DVal.truthy : DVal → Bool
  | .null => false
  | .str s => s ≠ ""
  | .nat n => n ≠ 0
  | .list l => !l.isEmpty

/-- A Python dict as an association list (first binding wins on lookup). -/
abbrev Dict := List (String × DVal)

/-- Embeds `data.get(k)`: `none` when the key is absent. -/
def dictGet (d : Dict) (k : String) : Option DVal :=
  (d.find? (fun p => p.1 = k)).map (fun p => p.2)

/-- Embeds `Task.to_dict` (`models/task.py` lines 64-76): flat mapping of every
field; enums as their canonical strings, timestamps via `isoformat`,
absent due date and absent id as explicit nulls. -/
def Task.to_dict (t : Task) : Dict :=
  [(("id"), match t.id with | some n => .nat n | none => .null),
   (("title"), .str t.title),
   (("description"), .str t.description),
   (("priority"), .str t.priority.name),
   (("status"), .str t.status.value),
   (("due_date"), match t.due_date with | some d => .str (isoformat d) | none => .null),
   (("tags"), .list t.tags),
   (("created_at"), .str (isoformat t.created_at)),
   (("updated_at"), .str (isoformat t.updated_at))]

/-- Embeds `Task.from_dict` (`models/task.py` lines 78-94).  `data['title']` raises
`KeyError` when absent; the optional fields fall back to the constructor
defaults; `created_at` / `updated_at` fall back to `datetime.now()`, passed
here as `now`.  A failure of any lookup or parse (`KeyError`, `ValueError`,
`TypeError` on an ill-typed value, which the typed model cannot hold) is
`none`. -/
def Task.from_dict (d : Dict) (now : DateTime) : Option Task :=
  (match dictGet d ("title") with
    | some (.str s) => some s
    | _ => none).bind fun title =>
  (match dictGet d ("description") with
    | some (.str s) => some s
    | none => some ""
    | some _ => none).bind fun description =>
  (match dictGet d ("priority") with
    | some (.str s) => Priority.fromName s
    | none => Priority.fromName ("MEDIUM")
    | some _ => none).bind fun priority =>
  (match dictGet d ("status") with
    | some (.str s) => Status.fromValue s
    | none => Status.fromValue ("To Do")
    | some _ => none).bind fun status =>
  -- due_date: `datetime.fromisoformat(data['due_date']) if data.get('due_date') else None`
  (match dictGet d ("due_date") with
    | some v =>
        if v.truthy then
          match v with
          | .str s => (fromisoformat s).map some
          | _ => none
        else some none
    | none => some none).bind fun due_date =>
  (match dictGet d ("tags") with
    | some (.list l) => some l
    | none => some []
    | some _ => none).bind fun tags =>
  -- `task.id = data.get('id')`: null or absent leaves the entity transient
  (match dictGet d ("id") with
    | some (.nat n) => some (some n)
    | some .null => some none
    | none => some none
    | some _ => none).bind fun id =>
  -- `'created_at' in data` tests key presence, not truthiness
  (match dictGet d ("created_at") with
    | some (.str s) => fromisoformat s
    | none => some now
    | some _ => none).bind fun created_at =>
  (match dictGet d ("updated_at") with
    | some (.str s) => fromisoformat s
    | none => some now
    | some _ => none).bind fun updated_at =>
  some { id := id, title := title, description := description,
         priority := priority, status := status, due_date := due_date,
         tags := tags, created_at := created_at, updated_at := updated_at }

/-- A row of the `tasks` table (`database.py` schema): scalar columns are
stored in their textual encodings exactly as the INSERT/UPDATE statements
write them. -/
structure TaskRow where
  id : Nat
  title : String
  description : String
  priority : String
  status : String
  due_date : Option String
  created_at : String
  updated_at : String
deriving DecidableEq

/-- A row of the `tags` table: `id PK autoincrement, name UNIQUE`. -/
structure TagRow where
  id : Nat
  name : String
deriving DecidableEq

/-- The SQLite store: the three tables plus the autoincrement counters.
`task_tags` rows are `(task_id, tag_id)` pairs. -/
structure DBState where
  tasks : List TaskRow
  tags : List TagRow
  task_tags : List (Nat × Nat)
  nextTaskId : Nat
  nextTagId : Nat
deriving DecidableEq

/-- The tag-side well-formedness maintained by the schema: tag primary keys
are below the autoincrement counter and unique, and association tag ids were
issued by the counter. -/
def TagWF (s : DBState) : Prop :=
  (∀ tr ∈ s.tags, tr.id < s.nextTagId) ∧
  s.tags.Pairwise (fun a b => a.id ≠ b.id) ∧
  (∀ p ∈ s.task_tags, p.2 < s.nextTagId)

/-- Well-formedness maintained by the schema: primary keys are below the
autoincrement counters and unique, tag names are unique (UNIQUE constraint),
and association ids were issued by the counters. -/
def WF (s : DBState) : Prop :=
  (∀ r ∈ s.tasks, r.id < s.nextTaskId) ∧
  (∀ p ∈ s.task_tags, p.1 < s.nextTaskId) ∧
  s.tags.Pairwise (fun a b => a.name ≠ b.name) ∧
  TagWF s

instance (s : DBState) : Decidable (TagWF s) := by
  unfold TagWF; infer_instance

instance (s : DBState) : Decidable (WF s) := by
  unfold WF; infer_instance

/-- The get-or-create step of `_update_task_tags`: `SELECT id FROM tags
WHERE name = ?`, reusing the id when found, else `INSERT INTO tags (name)`
and take `lastrowid`. -/
def getOrCreateTag (s : DBState) (nm : String) : Nat × DBState :=
  match s.tags.find? (fun tr => tr.name = nm) with
  | some tr => (tr.id, s)
  | none => (s.nextTagId,
      { s with tags := s.tags ++ [⟨s.nextTagId, nm⟩], nextTagId := s.nextTagId + 1 })

/-- Embeds `INSERT OR IGNORE INTO task_tags (task_id, tag_id)`. -/
def insertOrIgnoreTaskTag (s : DBState) (tid tg : Nat) : DBState :=
  if (tid, tg) ∈ s.task_tags then s
  else { s with task_tags := s.task_tags ++ [(tid, tg)] }

/-- The `for tag_name in tags:` loop body of `_update_task_tags`. -/
def addTagLinks (s : DBState) (tid : Nat) : List String → DBState
  | [] => s
  | nm :: rest =>
      let p := getOrCreateTag s nm
      addTagLinks (insertOrIgnoreTaskTag p.2 tid p.1) tid rest

/-- Embeds `Database._update_task_tags` (`database.py` lines 238-268): delete all
existing associations of the task, then (unless the list is empty) re-insert
one association per tag name, creating missing tag rows. -/
def update_task_tags (s : DBState) (tid : Nat) (tags : List String) : DBState :=
  let s1 := { s with task_tags := s.task_tags.filter (fun p => p.1 ≠ tid) }
  if tags.isEmpty then s1 else addTagLinks s1 tid tags

/-- Resolve a tag id to its name through the `tags` table. -/
def tagNameOf (s : DBState) (i : Nat) : Option String :=
  (s.tags.find? (fun tr => tr.id = i)).map (fun tr => tr.name)

/-- The tag-name query both `get_task` and `get_all_tasks` run:
`SELECT t.name FROM tags t JOIN task_tags tt ON t.id = tt.tag_id WHERE
tt.task_id = ?` (row order is one representative of SQLite's unspecified
order). -/
def taskTagNames (s : DBState) (tid : Nat) : List String :=
  (s.task_tags.filter (fun p => p.1 = tid)).filterMap (fun p => tagNameOf s p.2)

/-- Embeds `Database._row_to_task` (`database.py` lines 270-286): parse the stored
enum strings (`Priority[...]` / `Status(...)` raise on unknown strings) and
timestamps back into a `Task`; `none` models the raised exception. -/
def row_to_task (row : TaskRow) (tags : List String) : Option Task :=
  (Priority.fromName row.priority).bind fun p =>
  (Status.fromValue row.status).bind fun st =>
  -- `datetime.fromisoformat(row['due_date']) if row['due_date'] else None`
  (match row.due_date with
    | none => some none
    | some s => if s = "" then some none
                else (fromisoformat s).map some).bind fun dd =>
  (fromisoformat row.created_at).bind fun ca =>
  (fromisoformat row.updated_at).bind fun ua =>
  some { id := some row.id, title := row.title, description := row.description,
         priority := p, status := st, due_date := dd, tags := tags,
         created_at := ca, updated_at := ua }

/-- The row the INSERT of `add_task` writes: scalar fields in their textual
encodings (`priority.name`, `status.value`, `isoformat` timestamps, null for
an absent due date), with `lastrowid` the next autoincrement id. -/
def newTaskRow (s : DBState) (t : Task) : TaskRow :=
  { id := s.nextTaskId, title := t.title, description := t.description,
    priority := t.priority.name, status := t.status.value,
    due_date := t.due_date.map isoformat,
    created_at := isoformat t.created_at, updated_at := isoformat t.updated_at }

/-- Effect of the INSERT statement of `add_task` on the store. -/
def insertTaskRow (s : DBState) (t : Task) : DBState :=
  { s with tasks := s.tasks ++ [newTaskRow s t], nextTaskId := s.nextTaskId + 1 }

/-- Embeds `Database.add_task` (`database.py` lines 84-117): INSERT the scalar
columns, take `lastrowid`, then synchronise tags when `task.tags` is
non-empty (Python truthiness of the list: `if task.tags:`). -/
def add_task (s : DBState) (t : Task) : Nat × DBState :=
  (s.nextTaskId,
   if t.tags.isEmpty then insertTaskRow s t
   else update_task_tags (insertTaskRow s t) s.nextTaskId t.tags)

/-- Embeds `Database.get_task` (`database.py` lines 119-145): `some none` is the
"not found" return, `some (some t)` a fetched task, outer `none` a raised
parse error from `_row_to_task`. -/
def get_task (s : DBState) (tid : Nat) : Option (Option Task) :=
  match s.tasks.find? (fun r => r.id = tid) with
  | none => some none
  | some row => (row_to_task row (taskTagNames s tid)).map some

/-- The SET clause of `update_task`: every mutable scalar column from the
caller's task, except that `updated_at` is `datetime.now().isoformat()`
(the `now` argument), not the caller's value. -/
def updateRowWith (t : Task) (now : DateTime) (r : TaskRow) : TaskRow :=
  { r with title := t.title, description := t.description,
           priority := t.priority.name, status := t.status.value,
           due_date := t.due_date.map isoformat,
           updated_at := isoformat now }

/-- Effect of the UPDATE statement on the store: the columns of the SET
clause are overwritten on every row matching the WHERE clause (`created_at`
is not in the SET clause and keeps its value). -/
def applyTaskUpdate (s : DBState) (tid : Nat) (t : Task) (now : DateTime) : DBState :=
  { s with tasks := s.tasks.map (fun r => if r.id = tid then updateRowWith t now r else r) }

/-- Embeds `Database.update_task` (`database.py` lines 147-186): `False` when
`task.id` is `None` or the UPDATE matches no row (`cursor.rowcount == 0`);
otherwise run the UPDATE, then synchronise tags (`task.tags` is never
`None` for a model `Task`, so the `hasattr`-guarded call always happens). -/
def update_task (s : DBState) (t : Task) (now : DateTime) : Bool × DBState :=
  match t.id with
  | none => (false, s)
  | some tid =>
      if s.tasks.all (fun r => r.id ≠ tid) then (false, s)
      else (true, update_task_tags (applyTaskUpdate s tid t now) tid t.tags)

/-- Embeds `Database.delete_task` (`database.py` lines 188-202): `DELETE FROM tasks
WHERE id = ?`.  The connection this statement runs on comes from
`_get_connection`, which never issues `PRAGMA foreign_keys = ON`; in SQLite
that pragma is per-connection and defaults to OFF (only `_init_db`'s own
connection enabled it), so the declared `ON DELETE CASCADE` on `task_tags`
is NOT enforced and the associations survive. -/
def delete_task (s : DBState) (tid : Nat) : Bool × DBState :=
  (s.tasks.any (fun r => r.id = tid),
   { s with tasks := s.tasks.filter (fun r => r.id ≠ tid) })

/-- What `delete_task` would do were foreign-key enforcement active on its
connection, i.e. the spec's cascading delete.  Modelled from the spec for
comparison with `delete_task`. -/
def delete_task_cascade (s : DBState) (tid : Nat) : Bool × DBState :=
  (s.tasks.any (fun r => r.id = tid),
   { s with tasks := s.tasks.filter (fun r => r.id ≠ tid),
            task_tags := s.task_tags.filter (fun p => p.1 ≠ tid) })

/-- The `for row in cursor.fetchall():` loop of `Database.get_all_tasks`
(`database.py` lines 204-235): `_row_to_task` on every returned row, with
the per-row tag query; `none` models a raised parse error. -/
def rowsToTasks (s : DBState) : List TaskRow → Option (List Task)
  | [] => some []
  | r :: rest => do
      let t ← row_to_task r (taskTagNames s r.id)
      let ts ← rowsToTasks s rest
      pure (t :: ts)

/-- Embeds `Database.get_all_tasks`, selecting the rows by the optional status
filter (`if status:` — an enum member is always truthy, so the `Option`
models presence) and running the row loop above. -/
def get_all_tasks (s : DBState) (filt : Option Status) : Option (List Task) :=
  let rows : List TaskRow := match filt with
    | some st => s.tasks.filter (fun r => r.status = st.value)
    | none => s.tasks
  rowsToTasks s rows

/-! ### Connection lifecycle

Every operation runs its body inside `with self._get_connection() as conn:`.
`sqlite3.connect` opens the connection; the `sqlite3.Connection` context
manager commits the pending transaction on normal exit and rolls it back on
an exception — the Python documentation notes explicitly that it does NOT
close the connection.  We record the event sequence each operation's source
produces on its exit paths. -/

inductive ConnEvent where
  | openConn
  | commitTxn
  | rollbackTxn
  | closeConn
deriving DecidableEq

inductive DBOp where
  | addTask
  | getTask
  | updateTaskNoneId
  | updateTaskNotFound
  | updateTaskSuccess
  | deleteTask
  | getAllTasks
deriving DecidableEq

/-- The connection events of one operation, on the normal exit path
(`raised = false`) and on the path where the body raises
(`raised = true`).  `add_task`, `delete_task` and a successful
`update_task` call `conn.commit()` explicitly and the context manager
commits again on exit; the early `return False` paths only get the context
manager's commit; `update_task` with a `None` id returns before any
connection is opened. -/
def connTrace : DBOp → Bool → List ConnEvent
  | .updateTaskNoneId, _ => []
  | .addTask, false => [.openConn, .commitTxn, .commitTxn]
  | .deleteTask, false => [.openConn, .commitTxn, .commitTxn]
  | .updateTaskSuccess, false => [.openConn, .commitTxn, .commitTxn]
  | .getTask, false => [.openConn, .commitTxn]
  | .updateTaskNotFound, false => [.openConn, .commitTxn]
  | .getAllTasks, false => [.openConn, .commitTxn]
  | _, true => [.openConn, .rollbackTxn]

/-! ### Concrete states used to witness the theorems -/

/-- The empty store right after `_init_db` (SQLite autoincrement ids start
at 1). -/
def emptyDB : DBState :=
  { tasks := [], tags := [], task_tags := [], nextTaskId := 1, nextTagId := 1 }

/-- The scenario task of spec section 8. -/
def exTask : Task :=
  { id := none, title := "Buy milk", description := "", priority := .HIGH,
    status := .TODO, due_date := none, tags := ["errand", "home"],
    created_at := 3, updated_at := 3 }

/-- The stored row of `exTask` after creation (id 1). -/
def exRow : TaskRow :=
  { id := 1, title := "Buy milk", description := "",
    priority := "HIGH", status := "To Do", due_date := none,
    created_at := isoformat 3, updated_at := isoformat 3 }

/-- The store after `add_task emptyDB exTask`: task row 1 tagged
`errand` (tag 1) and `home` (tag 2). -/
def exState : DBState :=
  { tasks := [exRow],
    tags := [⟨1, "errand"⟩, ⟨2, "home"⟩],
    task_tags := [(1, 1), (1, 2)],
    nextTaskId := 2, nextTagId := 3 }

/-- The scenario update of spec section 8: new title, tag list shrunk to
just `errand`. -/
def exUpdTask : Task :=
  { exTask with id := some 1, title := "Buy milk and eggs", tags := ["errand"] }

/-- What `get_task` / `get_all_tasks` return for the stored `exRow`. -/
def exFetched : Task :=
  { id := some 1, title := "Buy milk", description := "", priority := .HIGH,
    status := .TODO, due_date := none, tags := ["errand", "home"],
    created_at := 3, updated_at := 3 }

/-! ## Lemmas -/

theorem fromisoformat_isoformat (d : DateTime) : fromisoformat (isoformat d) = some d := by
  unfold fromisoformat isoformat
  rw [if_pos]
  · simp
  · refine ⟨by simp, ?_⟩
    simp [List.all_eq_true]

theorem isoformat_ne_empty (d : DateTime) : isoformat d ≠ "" := by
  intro h
  have : (isoformat d).data = ("" : String).data := by rw [h]
  simp [isoformat] at this

theorem Priority.fromName_name (p : Priority) : Priority.fromName p.name = some p := by
  cases p <;> decide

theorem Status.fromValue_value (st : Status) : Status.fromValue st.value = some st := by
  cases st <;> decide

theorem mem_taskTagNames (s : DBState) (tid : Nat) (nm : String) :
    nm ∈ taskTagNames s tid ↔
      ∃ i, (tid, i) ∈ s.task_tags ∧ tagNameOf s i = some nm := by
  simp only [taskTagNames, List.mem_filterMap, List.mem_filter, decide_eq_true_eq]
  constructor
  · rintro ⟨⟨a, b⟩, ⟨hmem, rfl⟩, hname⟩
    exact ⟨b, hmem, hname⟩
  · rintro ⟨i, hmem, hname⟩
    exact ⟨(tid, i), ⟨hmem, rfl⟩, hname⟩

theorem taskTagNames_nil (s : DBState) (tid : Nat) (h : ∀ p ∈ s.task_tags, p.1 ≠ tid) :
    taskTagNames s tid = [] := by
  unfold taskTagNames
  have hf : s.task_tags.filter (fun p => p.1 = tid) = [] := by
    simp only [List.filter_eq_nil_iff, decide_eq_true_eq]
    exact h
  rw [hf]
  rfl

theorem tagNameOf_congr (s s' : DBState) (i : Nat) (h : s'.tags = s.tags) :
    tagNameOf s' i = tagNameOf s i := by
  unfold tagNameOf
  rw [h]

theorem tagRow_find?_of_mem (l : List TagRow) (hpw : l.Pairwise (fun a b => a.id ≠ b.id))
    (tr : TagRow) (htr : tr ∈ l) : l.find? (fun x => x.id = tr.id) = some tr := by
  induction l with
  | nil => cases htr
  | cons hd tl ih =>
      rcases List.mem_cons.1 htr with rfl | hmem
      · rw [List.find?_cons_of_pos]
        simp
      · have hne : hd.id ≠ tr.id := (List.pairwise_cons.1 hpw).1 tr hmem
        rw [List.find?_cons_of_neg]
        · exact ih (List.pairwise_cons.1 hpw).2 hmem
        · simp [hne]

theorem getOrCreateTag_tasks (s : DBState) (nm : String) :
    (getOrCreateTag s nm).2.tasks = s.tasks := by
  unfold getOrCreateTag
  split <;> rfl

theorem getOrCreateTag_task_tags (s : DBState) (nm : String) :
    (getOrCreateTag s nm).2.task_tags = s.task_tags := by
  unfold getOrCreateTag
  split <;> rfl

theorem getOrCreateTag_nextTaskId (s : DBState) (nm : String) :
    (getOrCreateTag s nm).2.nextTaskId = s.nextTaskId := by
  unfold getOrCreateTag
  split <;> rfl

theorem getOrCreateTag_tags_mono (s : DBState) (nm : String) (tr : TagRow) (h : tr ∈ s.tags) :
    tr ∈ (getOrCreateTag s nm).2.tags := by
  unfold getOrCreateTag
  split
  · exact h
  · simp only [List.mem_append]
    exact Or.inl h

theorem getOrCreateTag_tagWF (s : DBState) (nm : String) (h : TagWF s) :
    TagWF (getOrCreateTag s nm).2 := by
  obtain ⟨h1, h2, h3⟩ := h
  unfold getOrCreateTag
  split
  · exact ⟨h1, h2, h3⟩
  · refine ⟨?_, ?_, ?_⟩
    · intro tr htr
      rcases List.mem_append.1 htr with hl | hr
      · exact Nat.lt_succ_of_lt (h1 tr hl)
      · simp only [List.mem_singleton] at hr
        subst hr
        exact Nat.lt_succ_self _
    · rw [List.pairwise_append]
      refine ⟨h2, List.pairwise_singleton _ _, ?_⟩
      intro a ha b hb
      simp only [List.mem_singleton] at hb
      subst hb
      exact Nat.ne_of_lt (h1 a ha)
    · intro p hp
      exact Nat.lt_succ_of_lt (h3 p hp)

theorem getOrCreateTag_fst_lt (s : DBState) (nm : String) (h : TagWF s) :
    (getOrCreateTag s nm).1 < (getOrCreateTag s nm).2.nextTagId := by
  obtain ⟨h1, _, _⟩ := h
  unfold getOrCreateTag
  split
  · next tr heq => exact h1 tr (List.mem_of_find?_eq_some heq)
  · exact Nat.lt_succ_self _

theorem getOrCreateTag_nameOf (s : DBState) (nm : String) (h : TagWF s) :
    tagNameOf (getOrCreateTag s nm).2 (getOrCreateTag s nm).1 = some nm := by
  obtain ⟨h1, h2, _⟩ := h
  unfold getOrCreateTag tagNameOf
  split
  · next tr heq =>
      have hmem := List.mem_of_find?_eq_some heq
      have hname : tr.name = nm := by simpa using List.find?_some heq
      simp only
      rw [tagRow_find?_of_mem s.tags h2 tr hmem]
      simp [hname]
  · simp only
    rw [List.find?_append]
    have hn : s.tags.find? (fun x => x.id = s.nextTagId) = none := by
      rw [List.find?_eq_none]
      intro x hx
      simp only [decide_eq_true_eq]
      exact Nat.ne_of_lt (h1 x hx)
    rw [hn]
    simp

theorem getOrCreateTag_nameOf_stable (s : DBState) (nm : String) (j : Nat)
    (hj : j < s.nextTagId) :
    tagNameOf (getOrCreateTag s nm).2 j = tagNameOf s j := by
  unfold getOrCreateTag tagNameOf
  split
  · rfl
  · simp only
    rw [List.find?_append]
    have hn : List.find? (fun x => x.id = j) ([⟨s.nextTagId, nm⟩] : List TagRow) = none := by
      simp [Nat.ne_of_gt hj]
    rw [hn]
    simp

theorem insertOrIgnore_tags (s : DBState) (tid tg : Nat) :
    (insertOrIgnoreTaskTag s tid tg).tags = s.tags := by
  unfold insertOrIgnoreTaskTag
  split <;> rfl

theorem insertOrIgnore_tasks (s : DBState) (tid tg : Nat) :
    (insertOrIgnoreTaskTag s tid tg).tasks = s.tasks := by
  unfold insertOrIgnoreTaskTag
  split <;> rfl

theorem insertOrIgnore_nextTagId (s : DBState) (tid tg : Nat) :
    (insertOrIgnoreTaskTag s tid tg).nextTagId = s.nextTagId := by
  unfold insertOrIgnoreTaskTag
  split <;> rfl

theorem insertOrIgnore_nextTaskId (s : DBState) (tid tg : Nat) :
    (insertOrIgnoreTaskTag s tid tg).nextTaskId = s.nextTaskId := by
  unfold insertOrIgnoreTaskTag
  split <;> rfl

theorem insertOrIgnore_mem (s : DBState) (tid tg : Nat) (q : Nat × Nat) :
    q ∈ (insertOrIgnoreTaskTag s tid tg).task_tags ↔ q ∈ s.task_tags ∨ q = (tid, tg) := by
  unfold insertOrIgnoreTaskTag
  split
  · next hmem =>
      constructor
      · exact Or.inl
      · rintro (hq | rfl)
        · exact hq
        · exact hmem
  · simp [List.mem_append]

theorem insertOrIgnore_tagWF (s : DBState) (tid tg : Nat) (h : TagWF s)
    (htg : tg < s.nextTagId) : TagWF (insertOrIgnoreTaskTag s tid tg) := by
  obtain ⟨h1, h2, h3⟩ := h
  refine ⟨?_, ?_, ?_⟩
  · rw [insertOrIgnore_tags, insertOrIgnore_nextTagId]
    exact h1
  · rw [insertOrIgnore_tags]
    exact h2
  · intro p hp
    rw [insertOrIgnore_nextTagId]
    rcases (insertOrIgnore_mem s tid tg p).1 hp with hq | rfl
    · exact h3 p hq
    · exact htg

theorem addTagLinks_cons (s : DBState) (tid : Nat) (nm : String) (rest : List String) :
    addTagLinks s tid (nm :: rest) =
      addTagLinks
        (insertOrIgnoreTaskTag (getOrCreateTag s nm).2 tid (getOrCreateTag s nm).1)
        tid rest := rfl

theorem addTagLinks_tasks (l : List String) (s : DBState) (tid : Nat) :
    (addTagLinks s tid l).tasks = s.tasks := by
  induction l generalizing s with
  | nil => rfl
  | cons nm rest ih =>
      rw [addTagLinks_cons, ih, insertOrIgnore_tasks, getOrCreateTag_tasks]

theorem addTagLinks_nextTaskId (l : List String) (s : DBState) (tid : Nat) :
    (addTagLinks s tid l).nextTaskId = s.nextTaskId := by
  induction l generalizing s with
  | nil => rfl
  | cons nm rest ih =>
      rw [addTagLinks_cons, ih, insertOrIgnore_nextTaskId, getOrCreateTag_nextTaskId]

theorem addTagLinks_tags_mono (l : List String) (s : DBState) (tid : Nat) (tr : TagRow)
    (h : tr ∈ s.tags) : tr ∈ (addTagLinks s tid l).tags := by
  induction l generalizing s with
  | nil => exact h
  | cons nm rest ih =>
      rw [addTagLinks_cons]
      apply ih
      rw [insertOrIgnore_tags]
      exact getOrCreateTag_tags_mono s nm tr h

theorem addTagLinks_mem_other (l : List String) (s : DBState) (tid : Nat) (q : Nat × Nat)
    (hq : q.1 ≠ tid) :
    q ∈ (addTagLinks s tid l).task_tags ↔ q ∈ s.task_tags := by
  induction l generalizing s with
  | nil => exact Iff.rfl
  | cons nm rest ih =>
      rw [addTagLinks_cons, ih]
      rw [insertOrIgnore_mem, getOrCreateTag_task_tags]
      constructor
      · rintro (hmem | rfl)
        · exact hmem
        · exact absurd rfl hq
      · exact Or.inl

theorem addTagLinks_names (l : List String) (s : DBState) (tid : Nat) (h : TagWF s) :
    TagWF (addTagLinks s tid l) ∧
    (∀ nm, (∃ i, (tid, i) ∈ (addTagLinks s tid l).task_tags ∧
              tagNameOf (addTagLinks s tid l) i = some nm) ↔
       (nm ∈ l ∨ ∃ i, (tid, i) ∈ s.task_tags ∧ tagNameOf s i = some nm)) := by
  induction l generalizing s with
  | nil => exact ⟨h, by simp [addTagLinks]⟩
  | cons nm0 rest ih =>
      have hwf1 : TagWF (getOrCreateTag s nm0).2 := getOrCreateTag_tagWF s nm0 h
      have htg : (getOrCreateTag s nm0).1 < (getOrCreateTag s nm0).2.nextTagId :=
        getOrCreateTag_fst_lt s nm0 h
      have hwf2 : TagWF
          (insertOrIgnoreTaskTag (getOrCreateTag s nm0).2 tid (getOrCreateTag s nm0).1) :=
        insertOrIgnore_tagWF _ tid _ hwf1 htg
      have hname_tg :
          tagNameOf (insertOrIgnoreTaskTag (getOrCreateTag s nm0).2 tid (getOrCreateTag s nm0).1)
            (getOrCreateTag s nm0).1 = some nm0 := by
        rw [tagNameOf_congr (getOrCreateTag s nm0).2
              (insertOrIgnoreTaskTag (getOrCreateTag s nm0).2 tid (getOrCreateTag s nm0).1)
              (getOrCreateTag s nm0).1
              (insertOrIgnore_tags (getOrCreateTag s nm0).2 tid (getOrCreateTag s nm0).1)]
        exact getOrCreateTag_nameOf s nm0 h
      have hstable : ∀ j, j < s.nextTagId →
          tagNameOf (insertOrIgnoreTaskTag (getOrCreateTag s nm0).2 tid (getOrCreateTag s nm0).1)
            j = tagNameOf s j := by
        intro j hj
        rw [tagNameOf_congr (getOrCreateTag s nm0).2
              (insertOrIgnoreTaskTag (getOrCreateTag s nm0).2 tid (getOrCreateTag s nm0).1)
              j (insertOrIgnore_tags (getOrCreateTag s nm0).2 tid (getOrCreateTag s nm0).1)]
        exact getOrCreateTag_nameOf_stable s nm0 j hj
      have step : ∀ nm,
          (∃ i, (tid, i) ∈
              (insertOrIgnoreTaskTag (getOrCreateTag s nm0).2 tid
                (getOrCreateTag s nm0).1).task_tags ∧
            tagNameOf (insertOrIgnoreTaskTag (getOrCreateTag s nm0).2 tid
                (getOrCreateTag s nm0).1) i = some nm) ↔
          (nm = nm0 ∨ ∃ i, (tid, i) ∈ s.task_tags ∧ tagNameOf s i = some nm) := by
        intro nm
        constructor
        · rintro ⟨i, hi, hni⟩
          rcases (insertOrIgnore_mem _ tid _ (tid, i)).1 hi with hin1 | heq
          · rw [getOrCreateTag_task_tags] at hin1
            have hilt : i < s.nextTagId := h.2.2 (tid, i) hin1
            right
            exact ⟨i, hin1, by rwa [hstable i hilt] at hni⟩
          · have hig : i = (getOrCreateTag s nm0).1 := congrArg Prod.snd heq
            subst hig
            rw [hname_tg] at hni
            exact Or.inl (Option.some.inj hni).symm
        · rintro (heq | ⟨i, hin, hni⟩)
          · exact ⟨(getOrCreateTag s nm0).1,
              (insertOrIgnore_mem _ tid _ _).2 (Or.inr rfl), by rw [heq]; exact hname_tg⟩
          · have hilt : i < s.nextTagId := h.2.2 (tid, i) hin
            refine ⟨i, (insertOrIgnore_mem _ tid _ _).2 (Or.inl ?_), ?_⟩
            · rwa [getOrCreateTag_task_tags]
            · rw [hstable i hilt]
              exact hni
      obtain ⟨ihwf, ihnames⟩ := ih _ hwf2
      refine ⟨by rwa [addTagLinks_cons], ?_⟩
      intro nm
      rw [addTagLinks_cons, ihnames nm, step nm]
      simp only [List.mem_cons]
      tauto

theorem update_task_tags_eq (s : DBState) (tid : Nat) (tags : List String) :
    update_task_tags s tid tags =
      addTagLinks { s with task_tags := s.task_tags.filter (fun p => p.1 ≠ tid) } tid tags := by
  unfold update_task_tags
  cases tags <;> rfl

theorem filter_assoc_tagWF (s : DBState) (tid : Nat) (h : TagWF s) :
    TagWF { s with task_tags := s.task_tags.filter (fun p => p.1 ≠ tid) } := by
  obtain ⟨h1, h2, h3⟩ := h
  exact ⟨h1, h2, fun p hp => h3 p (List.mem_of_mem_filter hp)⟩

theorem update_task_tags_tasks (s : DBState) (tid : Nat) (tags : List String) :
    (update_task_tags s tid tags).tasks = s.tasks := by
  rw [update_task_tags_eq, addTagLinks_tasks]

theorem update_task_tags_nextTaskId (s : DBState) (tid : Nat) (tags : List String) :
    (update_task_tags s tid tags).nextTaskId = s.nextTaskId := by
  rw [update_task_tags_eq, addTagLinks_nextTaskId]

theorem update_task_tags_tags_mono (s : DBState) (tid : Nat) (tags : List String)
    (tr : TagRow) (h : tr ∈ s.tags) : tr ∈ (update_task_tags s tid tags).tags := by
  rw [update_task_tags_eq]
  exact addTagLinks_tags_mono tags _ tid tr h

theorem update_task_tags_mem_other (s : DBState) (tid : Nat) (tags : List String)
    (q : Nat × Nat) (hq : q.1 ≠ tid) :
    q ∈ (update_task_tags s tid tags).task_tags ↔ q ∈ s.task_tags := by
  rw [update_task_tags_eq, addTagLinks_mem_other tags _ tid q hq]
  simp only [List.mem_filter, decide_eq_true_eq]
  exact ⟨fun hp => hp.1, fun hp => ⟨hp, hq⟩⟩

theorem update_task_tags_names (s : DBState) (tid : Nat) (tags : List String) (h : TagWF s) :
    ∀ nm, nm ∈ taskTagNames (update_task_tags s tid tags) tid ↔ nm ∈ tags := by
  intro nm
  rw [update_task_tags_eq, mem_taskTagNames]
  have hwf1 := filter_assoc_tagWF s tid h
  rw [(addTagLinks_names tags _ tid hwf1).2 nm]
  simp only [List.mem_filter, decide_eq_true_eq]
  constructor
  · rintro (hl | ⟨i, ⟨_, hne⟩, _⟩)
    · exact hl
    · exact absurd rfl hne
  · exact Or.inl

/-! ## Claim theorems -/

/-- C1: the claim says `delete_task(id)` removes the task's row AND its
`task_tags` association rows.  The code removes the row but, because no
CRUD connection re-enables SQLite's per-connection `foreign_keys` pragma,
the declared `ON DELETE CASCADE` never fires: on the store holding task 1
tagged twice, `delete_task 1` reports success and deletes the row, yet both
association rows `(1,1)` and `(1,2)` survive, where the cascade the spec
describes (`delete_task_cascade`) would remove them. -/
theorem delete_task_no_cascade :
    (delete_task exState 1).1 = true ∧
    (delete_task exState 1).2.tasks = [] ∧
    (1, 1) ∈ (delete_task exState 1).2.task_tags ∧
    (1, 2) ∈ (delete_task exState 1).2.task_tags ∧
    (delete_task_cascade exState 1).2.task_tags = [] := by
  decide

/-- C2: `update_task` on a task whose id is `None`, or matches no stored
row, returns `False` and returns the store exactly as it was — same row
count, same rows in every table. -/
theorem update_task_nonexistent_unchanged (s : DBState) (t : Task) (now : DateTime)
    (h : ∀ tid, t.id = some tid → ∀ r ∈ s.tasks, r.id ≠ tid) :
    update_task s t now = (false, s) := by
  unfold update_task
  cases hid : t.id with
  | none => rfl
  | some tid =>
      have hall : s.tasks.all (fun r => r.id ≠ tid) = true := by
        simp only [List.all_eq_true, decide_eq_true_eq]
        exact fun r hr => h tid hid r hr
      simp only [hall]
      simp

theorem update_task_nonexistent_unchanged_witness :
    update_task exState { exTask with id := some 99 } 8 = (false, exState) := by
  apply update_task_nonexistent_unchanged
  intro tid heq r hr
  have htid : tid = 99 := (Option.some.inj heq).symm
  subst htid
  simp only [exState, List.mem_singleton] at hr
  subst hr
  decide

/-- C6 counterexample: the claim says the connection acquired by a storage
operation is closed on every exit path.  On `add_task`'s normal exit path a
connection is opened and no close event ever occurs (`with conn:` on a
`sqlite3.Connection` commits but does not close). -/
theorem connection_not_closed :
    ConnEvent.openConn ∈ connTrace .addTask false ∧
    ConnEvent.closeConn ∉ connTrace .addTask false := by
  decide

/-- C6 amended: every operation that opens a connection finalises its
transaction on every exit path — commit on normal exit, rollback when the
body raises — but never explicitly closes the connection (release is left
to garbage collection; `update_task` with a `None` id opens none). -/
theorem connection_txn_finalized_not_closed (op : DBOp) (raised : Bool)
    (h : ConnEvent.openConn ∈ connTrace op raised) :
    (raised = false → ConnEvent.commitTxn ∈ connTrace op raised) ∧
    (raised = true → ConnEvent.rollbackTxn ∈ connTrace op raised) ∧
    ConnEvent.closeConn ∉ connTrace op raised := by
  cases op <;> cases raised <;> revert h <;> decide

theorem connection_txn_finalized_not_closed_witness :
    ConnEvent.openConn ∈ connTrace .getTask false ∧
    ((false = false → ConnEvent.commitTxn ∈ connTrace DBOp.getTask false) ∧
     (false = true → ConnEvent.rollbackTxn ∈ connTrace DBOp.getTask false) ∧
     ConnEvent.closeConn ∉ connTrace DBOp.getTask false) :=
  ⟨by decide, connection_txn_finalized_not_closed .getTask false (by decide)⟩

/-- C7: `_row_to_task` on a row whose priority string matches no `Priority`
member, or whose status string matches no `Status` member, raises
(`Priority[...]` a `KeyError`, `Status(...)` a `ValueError`) instead of
substituting any default member. -/
theorem row_to_task_corrupt_raises (row : TaskRow) (tags : List String)
    (h : Priority.fromName row.priority = none ∨ Status.fromValue row.status = none) :
    row_to_task row tags = none := by
  unfold row_to_task
  rcases h with h | h
  · simp [h]
  · cases hp : Priority.fromName row.priority <;> simp [h]

theorem row_to_task_corrupt_raises_witness :
    (Priority.fromName ("URGENT") = none ∨ Status.fromValue ("To Do") = none) ∧
    row_to_task { id := 1, title := "a", description := "", priority := "URGENT",
                  status := "To Do", due_date := none, created_at := isoformat 1,
                  updated_at := isoformat 1 } [] = none :=
  ⟨Or.inl (by decide),
   row_to_task_corrupt_raises _ [] (Or.inl (by decide))⟩

/-- C5: a successful `update_task` rewrites the matched row with the SET
clause — whose `updated_at` is `isoformat now`, the current time, not the
caller's `t.updated_at`, and which leaves `created_at` as stored — and
leaves every row of a different id exactly as it was (in both directions:
old rows persist, no new rows of other ids appear). -/
theorem update_task_refreshes_updated_at (s : DBState) (t : Task) (tid : Nat)
    (now : DateTime) (hid : t.id = some tid) (hex : ∃ r ∈ s.tasks, r.id = tid) :
    (update_task s t now).1 = true ∧
    (∀ r ∈ s.tasks, r.id = tid →
       updateRowWith t now r ∈ (update_task s t now).2.tasks ∧
       (updateRowWith t now r).updated_at = isoformat now ∧
       (updateRowWith t now r).created_at = r.created_at) ∧
    (∀ r ∈ s.tasks, r.id ≠ tid → r ∈ (update_task s t now).2.tasks) ∧
    (∀ r' ∈ (update_task s t now).2.tasks, r'.id ≠ tid → r' ∈ s.tasks) := by
  have hall : s.tasks.all (fun r => r.id ≠ tid) = false := by
    simp only [List.all_eq_false, decide_eq_true_eq, not_not]
    obtain ⟨r0, hr0, hr0id⟩ := hex
    exact ⟨r0, hr0, hr0id⟩
  have hupd : update_task s t now =
      (true, update_task_tags (applyTaskUpdate s tid t now) tid t.tags) := by
    unfold update_task
    rw [hid]
    simp only [List.all_eq_false, decide_eq_true_eq, not_not] at hall
    simp [hall]
  have htasks : (update_task s t now).2.tasks =
      s.tasks.map (fun r => if r.id = tid then updateRowWith t now r else r) := by
    rw [hupd, update_task_tags_tasks]
    rfl
  refine ⟨by rw [hupd], ?_, ?_, ?_⟩
  · intro r hr hrid
    refine ⟨?_, rfl, rfl⟩
    rw [htasks]
    have : updateRowWith t now r =
        (fun r => if r.id = tid then updateRowWith t now r else r) r := by
      simp [hrid]
    rw [this]
    exact List.mem_map_of_mem _ hr
  · intro r hr hrid
    rw [htasks]
    have : r = (fun r => if r.id = tid then updateRowWith t now r else r) r := by
      simp [hrid]
    rw [this]
    exact List.mem_map_of_mem _ hr
  · intro r' hr' hrid
    rw [htasks] at hr'
    obtain ⟨r, hr, hfr⟩ := List.mem_map.1 hr'
    by_cases hc : r.id = tid
    · rw [if_pos hc] at hfr
      have : r'.id = tid := by
        rw [← hfr]
        simpa [updateRowWith] using hc
      exact absurd this hrid
    · rw [if_neg hc] at hfr
      rw [← hfr]
      exact hr

theorem update_task_refreshes_updated_at_witness :
    (update_task exState exUpdTask 8).1 = true ∧
    (updateRowWith exUpdTask 8 exRow ∈ (update_task exState exUpdTask 8).2.tasks ∧
     (updateRowWith exUpdTask 8 exRow).updated_at = isoformat 8 ∧
     (updateRowWith exUpdTask 8 exRow).created_at = exRow.created_at) :=
  have h := update_task_refreshes_updated_at exState exUpdTask 1 8 (by decide)
    ⟨exRow, by decide, by decide⟩
  ⟨h.1, h.2.1 exRow (by decide) (by decide)⟩

/-- C4: a successful `update_task` fully replaces the task's association
set — afterwards the tag names associated with the task are exactly those
of the new list — while every tag row present before (referenced elsewhere
or not) is still in the `tags` table. -/
theorem update_task_replaces_tag_set (s : DBState) (t : Task) (tid : Nat)
    (now : DateTime) (hwf : WF s) (hid : t.id = some tid)
    (hex : ∃ r ∈ s.tasks, r.id = tid) :
    (update_task s t now).1 = true ∧
    (∀ nm, nm ∈ taskTagNames (update_task s t now).2 tid ↔ nm ∈ t.tags) ∧
    (∀ tr ∈ s.tags, tr ∈ (update_task s t now).2.tags) := by
  have hall : s.tasks.all (fun r => r.id ≠ tid) = false := by
    simp only [List.all_eq_false, decide_eq_true_eq, not_not]
    obtain ⟨r0, hr0, hr0id⟩ := hex
    exact ⟨r0, hr0, hr0id⟩
  have hupd : update_task s t now =
      (true, update_task_tags (applyTaskUpdate s tid t now) tid t.tags) := by
    unfold update_task
    rw [hid]
    simp only [List.all_eq_false, decide_eq_true_eq, not_not] at hall
    simp [hall]
  have htagwf : TagWF (applyTaskUpdate s tid t now) := hwf.2.2.2
  refine ⟨by rw [hupd], ?_, ?_⟩
  · intro nm
    rw [hupd]
    exact update_task_tags_names (applyTaskUpdate s tid t now) tid t.tags htagwf nm
  · intro tr htr
    rw [hupd]
    exact update_task_tags_tags_mono (applyTaskUpdate s tid t now) tid t.tags tr htr

theorem add_task_snd (s : DBState) (t : Task) :
    (add_task s t).2 =
      if t.tags.isEmpty then insertTaskRow s t
      else update_task_tags (insertTaskRow s t) s.nextTaskId t.tags := rfl

/-- C3: creating a task and immediately fetching it by the returned id
yields a task whose scalar fields all equal the created task's values and
whose tag list is set-equal to the created task's tag list. -/
theorem add_task_get_task_roundtrip (s : DBState) (t : Task) (hwf : WF s) :
    ∃ t', get_task (add_task s t).2 (add_task s t).1 = some (some t') ∧
      t'.title = t.title ∧ t'.description = t.description ∧
      t'.priority = t.priority ∧ t'.status = t.status ∧
      t'.due_date = t.due_date ∧ t'.created_at = t.created_at ∧
      t'.updated_at = t.updated_at ∧ (∀ nm, nm ∈ t'.tags ↔ nm ∈ t.tags) := by
  obtain ⟨hTaskIds, hAssocTaskIds, hNames, hTagWF⟩ := hwf
  have hfst : (add_task s t).1 = s.nextTaskId := rfl
  have htasks : (add_task s t).2.tasks = s.tasks ++ [newTaskRow s t] := by
    rw [add_task_snd]
    split
    · rfl
    · rw [update_task_tags_tasks]
      rfl
  have hfind : (add_task s t).2.tasks.find? (fun r => r.id = s.nextTaskId) =
      some (newTaskRow s t) := by
    rw [htasks, List.find?_append]
    have h1 : s.tasks.find? (fun r => r.id = s.nextTaskId) = none := by
      rw [List.find?_eq_none]
      intro r hr
      simp only [decide_eq_true_eq]
      exact Nat.ne_of_lt (hTaskIds r hr)
    rw [h1]
    simp [newTaskRow]
  have htags : ∀ nm, nm ∈ taskTagNames (add_task s t).2 s.nextTaskId ↔ nm ∈ t.tags := by
    intro nm
    rw [add_task_snd]
    split
    · next hemp =>
        rw [taskTagNames_nil]
        · simp [List.isEmpty_iff.1 hemp]
        · intro p hp
          exact Nat.ne_of_lt (hAssocTaskIds p hp)
    · exact update_task_tags_names (insertTaskRow s t) s.nextTaskId t.tags hTagWF nm
  refine ⟨{ id := some s.nextTaskId, title := t.title, description := t.description,
            priority := t.priority, status := t.status, due_date := t.due_date,
            tags := taskTagNames (add_task s t).2 s.nextTaskId,
            created_at := t.created_at, updated_at := t.updated_at },
          ?_, rfl, rfl, rfl, rfl, rfl, rfl, rfl, htags⟩
  rw [hfst]
  unfold get_task
  rw [hfind]
  unfold row_to_task
  cases hdd : t.due_date with
  | none =>
      simp [newTaskRow, Priority.fromName_name, Status.fromValue_value,
            fromisoformat_isoformat, hdd, hfst]
  | some d =>
      simp [newTaskRow, Priority.fromName_name, Status.fromValue_value,
            fromisoformat_isoformat, hdd, isoformat_ne_empty, hfst]

theorem add_task_get_task_roundtrip_witness :
    WF emptyDB ∧
    (∃ t', get_task (add_task emptyDB exTask).2 (add_task emptyDB exTask).1 =
        some (some t') ∧
      t'.title = exTask.title ∧ t'.description = exTask.description ∧
      t'.priority = exTask.priority ∧ t'.status = exTask.status ∧
      t'.due_date = exTask.due_date ∧ t'.created_at = exTask.created_at ∧
      t'.updated_at = exTask.updated_at ∧
      (∀ nm, nm ∈ t'.tags ↔ nm ∈ exTask.tags)) :=
  ⟨by decide, add_task_get_task_roundtrip emptyDB exTask (by decide)⟩

theorem update_task_replaces_tag_set_witness :
    (update_task exState exUpdTask 8).1 = true ∧
    (∀ nm, nm ∈ taskTagNames (update_task exState exUpdTask 8).2 1 ↔
       nm ∈ exUpdTask.tags) ∧
    (∀ tr ∈ exState.tags, tr ∈ (update_task exState exUpdTask 8).2.tags) :=
  update_task_replaces_tag_set exState exUpdTask 1 8 (by decide) (by decide)
    ⟨exRow, by decide, by decide⟩

theorem rowsToTasks_mem (s : DBState) (rows : List TaskRow) (out : List Task)
    (h : rowsToTasks s rows = some out) :
    ∀ u, u ∈ out ↔ ∃ r ∈ rows, row_to_task r (taskTagNames s r.id) = some u := by
  induction rows generalizing out with
  | nil =>
      intro u
      have : out = [] := by
        simpa [rowsToTasks] using h.symm
      subst this
      simp
  | cons r rest ih =>
      intro u
      cases hr : row_to_task r (taskTagNames s r.id) with
      | none =>
          rw [rowsToTasks, hr] at h
          cases h
      | some u0 =>
          cases hrest : rowsToTasks s rest with
          | none =>
              rw [rowsToTasks, hr, hrest] at h
              cases h
          | some ts =>
              rw [rowsToTasks, hr, hrest] at h
              have hout : out = u0 :: ts := (Option.some.inj h).symm
              subst hout
              simp only [List.mem_cons]
              constructor
              · rintro (rfl | hu)
                · exact ⟨r, Or.inl rfl, hr⟩
                · obtain ⟨r1, hr1, hr1u⟩ := (ih ts hrest u).1 hu
                  exact ⟨r1, Or.inr hr1, hr1u⟩
              · rintro ⟨r1, hr1, hr1u⟩
                rcases hr1 with rfl | hr1m
                · left
                  rw [hr] at hr1u
                  exact (Option.some.inj hr1u).symm
                · right
                  exact (ih ts hrest u).2 ⟨r1, hr1m, hr1u⟩

theorem row_to_task_status (r : TaskRow) (tags : List String) (u : Task)
    (h : row_to_task r tags = some u) : Status.fromValue r.status = some u.status := by
  unfold row_to_task at h
  simp only [Option.bind_eq_some, Option.some.injEq] at h
  obtain ⟨p, hp, st, hst, dd, hdd, ca, hca, ua, hua, hu⟩ := h
  rw [hst, ← hu]

/-- C8: `get_all_tasks` with a status filter returns exactly the tasks built
from the stored rows whose `status` column equals the filter's stored value
(each returned task indeed carries that status), and with no filter it
returns exactly the tasks built from all stored rows. -/
theorem get_all_tasks_filter_exact (s : DBState) (st : Status) (l l' : List Task)
    (hf : get_all_tasks s (some st) = some l) (ha : get_all_tasks s none = some l') :
    (∀ u, u ∈ l ↔ ∃ r ∈ s.tasks, r.status = st.value ∧
        row_to_task r (taskTagNames s r.id) = some u) ∧
    (∀ u ∈ l, u.status = st) ∧
    (∀ u, u ∈ l' ↔ ∃ r ∈ s.tasks, row_to_task r (taskTagNames s r.id) = some u) := by
  have hmemf := rowsToTasks_mem s (s.tasks.filter (fun r => r.status = st.value)) l hf
  have hmema := rowsToTasks_mem s s.tasks l' ha
  have hchar : ∀ u, u ∈ l ↔ ∃ r ∈ s.tasks, r.status = st.value ∧
      row_to_task r (taskTagNames s r.id) = some u := by
    intro u
    rw [hmemf u]
    constructor
    · rintro ⟨r, hr, hru⟩
      have := List.mem_filter.1 hr
      exact ⟨r, this.1, by simpa using this.2, hru⟩
    · rintro ⟨r, hr, hrst, hru⟩
      exact ⟨r, List.mem_filter.2 ⟨hr, by simpa using hrst⟩, hru⟩
  refine ⟨hchar, ?_, hmema⟩
  intro u hu
  obtain ⟨r, _, hrst, hru⟩ := (hchar u).1 hu
  have h1 := row_to_task_status r (taskTagNames s r.id) u hru
  rw [hrst, Status.fromValue_value] at h1
  exact (Option.some.inj h1).symm

theorem get_all_tasks_filter_exact_witness :
    (∀ u, u ∈ [exFetched] ↔ ∃ r ∈ exState.tasks, r.status = Status.TODO.value ∧
        row_to_task r (taskTagNames exState r.id) = some u) ∧
    (∀ u ∈ [exFetched], u.status = Status.TODO) ∧
    (∀ u, u ∈ [exFetched] ↔ ∃ r ∈ exState.tasks,
        row_to_task r (taskTagNames exState r.id) = some u) :=
  get_all_tasks_filter_exact exState .TODO [exFetched] [exFetched]
    (by decide) (by decide)

/-- C9: `Task.from_dict` is a left inverse of `Task.to_dict`: every field
— the optional id, the scalar fields, the optional due date (null when
absent), the tag list, and both timestamps — round-trips exactly. -/
theorem task_plain_roundtrip (t : Task) (now : DateTime) :
    Task.from_dict (Task.to_dict t) now = some t := by
  obtain ⟨id, title, description, priority, status, due_date, tags, created_at,
          updated_at⟩ := t
  cases id <;> cases due_date <;>
    simp [Task.from_dict, Task.to_dict, dictGet, Priority.fromName_name,
          Status.fromValue_value, fromisoformat_isoformat, isoformat_ne_empty,
          DVal.truthy]

/-- C10: `Task.from_dict` on a map without the `'title'` key raises
(`data['title']` is a `KeyError`) — title has no fallback default — while a
map holding only a title succeeds, every other field falling back to its
default (empty description, MEDIUM, To Do, no due date, no tags, no id,
`datetime.now()` timestamps). -/
theorem from_dict_title_required (d : Dict) (now : DateTime) (ttl : String)
    (h : dictGet d ("title") = none) :
    Task.from_dict d now = none ∧
    Task.from_dict [(("title"), DVal.str ttl)] now =
      some { id := none, title := ttl, description := "", priority := .MEDIUM,
             status := .TODO, due_date := none, tags := [], created_at := now,
             updated_at := now } := by
  constructor
  · unfold Task.from_dict
    rw [h]
    rfl
  · simp [Task.from_dict, dictGet, Priority.fromName, Status.fromValue]

theorem from_dict_title_required_witness :
    dictGet ([] : Dict) ("title") = none ∧
    (Task.from_dict [] 0 = none ∧
     Task.from_dict [(("title"), DVal.str "x")] 0 =
       some { id := none, title := "x", description := "", priority := .MEDIUM,
              status := .TODO, due_date := none, tags := [], created_at := 0,
              updated_at := 0 }) :=
  ⟨rfl, from_dict_title_required [] 0 "x" rfl⟩

end TaskMaster
